import Mathlib

set_option maxRecDepth 100000

/-!
Verification of the image-processing Lambda (`Lambda1-image-processor.py`)
against its natural-language specification.

The Python functions are shallowly embedded as Lean definitions:

* `resize_image_content` computes with Python binary64 floats.  These are
  embedded exactly: a float is a mantissa·2^exponent pair (`B64`), and
  `roundRatio n d` is the IEEE-754 round-to-nearest, ties-to-even binary64
  rounding of the rational `n / d` — CPython's `int / int` true division is
  correctly rounded, `int * float` and `int / float` first convert the int
  to binary64 and then round the product/quotient (`fmul`, `fdiv`), float
  comparison compares the exactly-represented values (`fblt`), and
  `int(...)` truncates toward zero (`ftrunc`).  The exponent range is
  unbounded, so the model is faithful to binary64 on all values in its
  normal range (no overflow to infinity below ~1.8·10^308 and no subnormal
  rounding above ~2.2·10^-308), which covers every realistic dimension;
  `B64.toRat` is the exact rational value of a float.
* Python `dict` literals become association lists with `List.lookup`;
  `dict.get(k, default)` becomes `Option.getD`.
* Pillow primitives used by the code (`Image.paste` with an 8-bit mask,
  `Image.alpha_composite`, mode conversion) are embedded per pixel,
  following Pillow's C implementation: `MULDIV255(a, b)` is
  `(t := a*b + 128; ((t >> 8) + t) >> 8)`, a masked paste blends
  `MULDIV255(dst, 255 - m) + MULDIV255(src, m)`, and `alpha_composite`
  follows `AlphaComposite.c` with `PRECISION_BITS = 7` (in particular a
  source pixel with alpha 0 leaves the destination pixel exactly unchanged).
* `str.split('/')`, `'/'.join(...)` and posix `os.path.splitext` are
  embedded as executable functions on `List Char`.
* The Lambda handler's S3 collaborators (`get_object` / `put_object`) and
  the byte-level decode/transform are modelled as an explicit `World` of
  `Except`-valued functions, so that "storage read failure", "transform
  exception" and "storage write failure" are explicit outcomes; a record
  whose required fields are missing raises (modelled by `Option`), which
  escapes the per-record handling to the top-level handler.
-/

namespace ImageProc

/-! ## Definitions -/

/-! ### IEEE-754 binary64 arithmetic

The exact embedding of the float operations used by
`resize_image_content`.  A float value is `m * 2 ^ e` for a 53-bit mantissa
`m` and an exponent `e`; `roundRatio n d` produces the correctly rounded
(round to nearest, ties to even) binary64 value of the exact rational
`n / d`, which is both CPython's `int / int` true division and (with
`d = 1`) the `float(int)` conversion.  The exponent is unbounded: the model
agrees with binary64 everywhere in its normal range (no overflow/underflow
or subnormals are modelled). -/

/-- `⌊log₂ n⌋` via fuelled halving (the fuel `n` bounds the recursion depth,
which is logarithmic). -/
def log2Aux : ℕ → ℕ → ℕ
  | 0, _ => 0
  | fuel + 1, n => if 2 ≤ n then log2Aux fuel (n / 2) + 1 else 0

def log2Nat (n : ℕ) : ℕ := log2Aux n n

/-- `⌊log₂ (n / d)⌋` for positive `n`, `d`: the candidate is
`⌊log₂ n⌋ - ⌊log₂ d⌋`, adjusted down by one when `n / d` falls short of
that power of two. -/
def floorLog2 (n d : ℕ) : ℤ :=
  if d * 2 ^ log2Nat n ≤ n * 2 ^ log2Nat d
  then (log2Nat n : ℤ) - (log2Nat d : ℤ)
  else (log2Nat n : ℤ) - (log2Nat d : ℤ) - 1

/-- Round the rational `a / b` to the nearest integer, ties to even. -/
def rne (a b : ℕ) : ℕ :=
  let t := a / b
  let r := a % b
  if 2 * r < b then t
  else if b < 2 * r then t + 1
  else if t % 2 = 0 then t else t + 1

/-- A binary64 float: the exact value `m * 2 ^ e`.  `roundRatio` always
produces a mantissa in `[2^52, 2^53]`; the operations below only depend on
the represented value. -/
structure B64 where
  m : ℕ
  e : ℤ
deriving DecidableEq

/-- The exact rational value of a float. -/
def B64.toRat (x : B64) : ℚ := (x.m : ℚ) * (2 : ℚ) ^ x.e

/-- The correctly rounded binary64 value of `n / d`: scale `n / d` by
`2 ^ s` into `[2^52, 2^53)`, round to the nearest mantissa (ties to even),
and undo the scaling in the exponent. -/
def roundRatio (n d : ℕ) : B64 :=
  if n = 0 ∨ d = 0 then ⟨0, 0⟩
  else
    let e := floorLog2 n d
    let s := 52 - e
    ⟨rne (n * 2 ^ s.toNat) (d * 2 ^ (-s).toNat), e - 52⟩

/-- Correctly rounded float division `x / y`: rounding the mantissa
quotient is scale-invariant, so the exponents pass through. -/
def fdiv (x y : B64) : B64 :=
  let r := roundRatio x.m y.m
  ⟨r.m, r.e + x.e - y.e⟩

/-- Correctly rounded float multiplication `x * y`. -/
def fmul (x y : B64) : B64 :=
  let r := roundRatio (x.m * y.m) 1
  ⟨r.m, r.e + x.e + y.e⟩

/-- Float comparison `x < y`: exact comparison of the represented values,
by shifting to a common exponent. -/
def fblt (x y : B64) : Bool :=
  if x.e ≤ y.e then decide (x.m < y.m * 2 ^ (y.e - x.e).toNat)
  else decide (x.m * 2 ^ (x.e - y.e).toNat < y.m)

/-- Python `int()` on a nonnegative float: truncation (= floor). -/
def ftrunc (x : B64) : ℕ :=
  if 0 ≤ x.e then x.m * 2 ^ x.e.toNat else x.m / 2 ^ (-x.e).toNat

/-! ### Resize (`resize_image_content`, source lines 148-166)

`resize_dims w h W H` is the `(new_width, new_height)` computed by
`resize_image_content` for an image of size `(w, h)` and target box `(W, H)`:

    aspect_ratio = original_width / original_height   # binary64
    if aspect_ratio > width / height:
        (width, int(width / aspect_ratio))
    else:
        (int(height * aspect_ratio), height)
-/

def resize_dims (w h W H : ℕ) : ℤ × ℤ :=
  let aspect_ratio := roundRatio w h
  if fblt (roundRatio W H) aspect_ratio then
    ((W : ℤ), (ftrunc (fdiv (roundRatio W 1) aspect_ratio) : ℤ))
  else
    ((ftrunc (fmul (roundRatio H 1) aspect_ratio) : ℤ), (H : ℤ))

/-- The property claimed by C2, stated verbatim: output within the box and
*exactly one* axis equal to its target-box dimension. -/
def resizeExactlyOneAxisTight (w h W H : ℕ) : Prop :=
  (resize_dims w h W H).1 ≤ (W : ℤ) ∧ (resize_dims w h W H).2 ≤ (H : ℤ) ∧
    (((resize_dims w h W H).1 = (W : ℤ) ∧ (resize_dims w h W H).2 ≠ (H : ℤ)) ∨
     ((resize_dims w h W H).1 ≠ (W : ℤ) ∧ (resize_dims w h W H).2 = (H : ℤ)))

/-! ### Watermark anchor positions (`add_watermark`, source lines 195-207)

The Python code builds a `dict` of anchor positions and reads it with
`position_map.get(position, position_map['bottom-right'])`.  Coordinates are
Python ints (they may go negative when the text is wider than the image), so
we use `ℤ`, and Python's floor division `//` is `Int.fdiv`. -/

def margin : ℤ := 20

def position_map (img_width img_height text_width text_height : ℤ) :
    List (String × ℤ × ℤ) :=
  [("top-left", (margin, margin)),
   ("top-right", (img_width - text_width - margin, margin)),
   ("bottom-left", (margin, img_height - text_height - margin)),
   ("bottom-right",
      (img_width - text_width - margin, img_height - text_height - margin)),
   ("center",
      (Int.fdiv (img_width - text_width) 2, Int.fdiv (img_height - text_height) 2))]

/-- `position_map.get(position, position_map['bottom-right'])`: the
`'bottom-right'` entry is always present, so the inner `getD (0, 0)` default
is never reached. -/
def anchor_pos (img_width img_height text_width text_height : ℤ)
    (position : String) : ℤ × ℤ :=
  ((position_map img_width img_height text_width text_height).lookup
      position).getD
    (((position_map img_width img_height text_width text_height).lookup
        "bottom-right").getD (0, 0))

/-! ### Pixel-level Pillow primitives -/

/-- An 8-bit-per-channel pixel.  Interpretation depends on the raster mode:
for `RGB` the `r,g,b` fields (alpha unused); for `RGBA` all four; for `LA`,
`r` is the luminance and `a` the alpha; for `P`, `r` is the palette index. -/
structure Px4 where
  r : ℕ
  g : ℕ
  b : ℕ
  a : ℕ
deriving DecidableEq

/-- Pillow's `SHIFTFORDIV255(x) = ((x >> 8) + x) >> 8`. -/
def shiftfordiv255 (x : ℕ) : ℕ := (x / 256 + x) / 256

/-- Pillow's `MULDIV255(a, b) = SHIFTFORDIV255(a * b + 128)`, a
round-to-nearest division of `a * b` by 255 on 8-bit operands. -/
def muldiv255 (a b : ℕ) : ℕ := shiftfordiv255 (a * b + 128)

/-- Pillow `Paste.c` `BLEND(mask, in1, in2)`: blend source channel `src` over
destination channel `dst` under 8-bit mask `m`. -/
def blendMask (m dst src : ℕ) : ℕ := muldiv255 dst (255 - m) + muldiv255 src m

/-- `background.paste(img, mask=alpha)` with an opaque white background:
flatten an RGBA pixel onto white, channel by channel (the result is an
opaque RGB pixel). -/
def flattenOverWhite (p : Px4) : Px4 :=
  ⟨blendMask p.a 255 p.r, blendMask p.a 255 p.g, blendMask p.a 255 p.b, 255⟩

/-- Pillow `AlphaComposite.c` (`PRECISION_BITS = 7`): composite `src` over
`dst`.  When `src.a = 0` the destination pixel is returned unchanged. -/
def alpha_composite_px (dst src : Px4) : Px4 :=
  if src.a = 0 then dst
  else
    let blend := dst.a * (255 - src.a)
    let outa255 := src.a * 255 + blend
    let coef1 := src.a * 255 * 255 * 128 / outa255
    let coef2 := 255 * 128 - coef1
    ⟨shiftfordiv255 (src.r * coef1 + dst.r * coef2 + 128 * 128) / 128,
     shiftfordiv255 (src.g * coef1 + dst.g * coef2 + 128 * 128) / 128,
     shiftfordiv255 (src.b * coef1 + dst.b * coef2 + 128 * 128) / 128,
     shiftfordiv255 (outa255 + 128)⟩

/-- The Pillow color modes the normalizer branches on. -/
inductive PilMode
  | RGB
  | RGBA
  | LA
  | P
deriving DecidableEq

/-- A decoded raster: dimensions, mode, pixel grid, and (for `P` mode) the
palette mapping an index to its RGBA entry (indexed transparency included,
as used by Pillow's `P → RGBA` conversion). -/
structure Raster where
  width : ℕ
  height : ℕ
  mode : PilMode
  pix : ℕ → ℕ → Px4
  palette : ℕ → Px4

/-- Pillow single-pixel conversion to RGBA from each source mode: `RGB` gains
alpha 255, `LA` replicates its luminance, `P` goes through the palette. -/
def toRGBA (mode : PilMode) (palette : ℕ → Px4) (p : Px4) : Px4 :=
  match mode with
  | .RGB => ⟨p.r, p.g, p.b, 255⟩
  | .RGBA => p
  | .LA => ⟨p.r, p.r, p.r, p.a⟩
  | .P => palette p.r

/-! ### Color-mode normalization (`process_image`, source lines 110-117)

    if img.mode in ('RGBA', 'LA', 'P'):
        background = Image.new('RGB', img.size, (255, 255, 255))
        if img.mode == 'P':
            img = img.convert('RGBA')
        background.paste(img, mask=img.split()[-1] if img.mode == 'RGBA' else None)
        img = background

The paste mask is the alpha band only when the (possibly `P`-converted)
image is RGBA; for `LA` the mask is `None`, so the paste *replaces* the
white background with the image converted to RGB — dropping its alpha. -/

def normalize_mode (img : Raster) : Raster :=
  match img.mode with
  | .RGB => img
  | .RGBA =>
    { img with
      mode := .RGB
      pix := fun x y => flattenOverWhite (img.pix x y) }
  | .LA =>
    { img with
      mode := .RGB
      pix := fun x y => ⟨(img.pix x y).r, (img.pix x y).r, (img.pix x y).r, 255⟩ }
  | .P =>
    { img with
      mode := .RGB
      pix := fun x y => flattenOverWhite (img.palette ((img.pix x y).r)) }

/-- C6's stated contract, as a predicate on a raster: every pixel of the
normalized raster is the RGBA-expansion of the source pixel flattened onto
opaque white (and for opaque RGB this is the identity on color channels). -/
def flattensOntoWhite (img : Raster) : Prop :=
  ∀ x y, (normalize_mode img).pix x y =
    flattenOverWhite (toRGBA img.mode img.palette (img.pix x y))

/-- The 1×1 `LA`-mode raster with a single fully transparent black pixel
(luminance 0, alpha 0). -/
def laRaster : Raster :=
  { width := 1, height := 1, mode := .LA,
    pix := fun _ _ => ⟨0, 0, 0, 0⟩, palette := fun _ => ⟨0, 0, 0, 0⟩ }

/-! ### Watermark compositing (`add_watermark`, source lines 168-221)

The glyph rasterization of `draw.text` (delegated to the font engine) is
abstracted by a `coverage` predicate: the overlay starts fully transparent
(`Image.new('RGBA', size, (0, 0, 0, 0))`) and pixels covered by the drawn
text receive the fill `(255, 255, 255, opacity)`.  The compositing and the
final flatten follow the code: `alpha_composite(img.convert('RGBA'),
overlay)` and then, since the result is RGBA, a paste onto white with the
alpha band as mask.  The input raster is the post-resize opaque RGB raster,
so `convert('RGBA')` sets every alpha to 255. -/

def add_watermark (img : Raster) (coverage : ℕ → ℕ → Bool) (opacity : ℕ) :
    Raster :=
  { img with
    mode := .RGB
    pix := fun x y =>
      let base : Px4 := ⟨(img.pix x y).r, (img.pix x y).g, (img.pix x y).b, 255⟩
      let over : Px4 :=
        if coverage x y then ⟨255, 255, 255, opacity⟩ else ⟨0, 0, 0, 0⟩
      flattenOverWhite (alpha_composite_px base over) }

/-- A raster stores 8-bit color channels. -/
def ValidChannels (img : Raster) : Prop :=
  ∀ x y, (img.pix x y).r ≤ 255 ∧ (img.pix x y).g ≤ 255 ∧ (img.pix x y).b ≤ 255

/-- A concrete 4×3 opaque RGB raster with constant color `(10, 20, 30)`. -/
def demoRGB : Raster :=
  { width := 4, height := 3, mode := .RGB,
    pix := fun _ _ => ⟨10, 20, 30, 255⟩, palette := fun _ => ⟨0, 0, 0, 0⟩ }

/-- A concrete glyph-coverage set touching only the pixel `(0, 0)`. -/
def demoCoverage : ℕ → ℕ → Bool := fun x y => x == 0 && y == 0

/-! ### Format-aware encoding (`process_image`, source lines 126-146)

    format_map = {'JPEG': 'JPEG', 'JPG': 'JPEG', 'PNG': 'PNG',
                  'GIF': 'GIF', 'BMP': 'BMP', 'WEBP': 'WEBP'}
    output_format = format_map.get(original_format, 'JPEG')
    if output_format == 'JPEG':
        img.save(buf, format=output_format, quality=quality, optimize=True)
    else:
        img.save(buf, format=output_format, optimize=True)

`img.format` may be `None` for an undetected format, hence `Option String`. -/

def format_map : List (String × String) :=
  [("JPEG", "JPEG"), ("JPG", "JPEG"), ("PNG", "PNG"),
   ("GIF", "GIF"), ("BMP", "BMP"), ("WEBP", "WEBP")]

def output_format (original_format : Option String) : String :=
  ((original_format.bind fun f => format_map.lookup f)).getD "JPEG"

/-- The arguments of the final `save` call. -/
structure SaveCall where
  format : String
  quality : Option ℕ
  optimize : Bool
deriving DecidableEq

def encode_call (original_format : Option String) (quality : ℕ) : SaveCall :=
  if output_format original_format = "JPEG" then
    { format := output_format original_format, quality := some quality,
      optimize := true }
  else
    { format := output_format original_format, quality := none,
      optimize := true }

/-! ### Key utilities (`is_image_file`, `get_content_type`,
`generate_destination_key`, source lines 99-102, 271-302) -/

def image_extensions : List String :=
  [".jpg", ".jpeg", ".png", ".gif", ".bmp", ".webp"]

/-- `str.lower`, characterwise (Python and Lean agree on the ASCII keys the
claims are about). -/
def lowerChars (cs : List Char) : List Char := cs.map Char.toLower

/-- `any(file_key.lower().endswith(ext) for ext in image_extensions)`;
`endswith` is suffix testing on the character list. -/
def is_image_file (file_key : String) : Bool :=
  image_extensions.any (fun ext => ext.data.isSuffixOf (lowerChars file_key.data))

/-- Index (from the front) of the last occurrence of `c`, like `str.rfind`. -/
def rfindIdx (c : Char) : List Char → Option ℕ
  | [] => none
  | x :: xs =>
    match rfindIdx c xs with
    | some i => some (i + 1)
    | none => if x = c then some 0 else none

/-- Posix `os.path.splitext`: split off the extension at the last dot, if
that dot lies after the last `/` and the basename has some non-dot character
before it (so `.bashrc`-style names do not split). -/
def splitextChars (p : List Char) : List Char × List Char :=
  let sepIndex := (rfindIdx '/' p).elim 0 (· + 1)
  match rfindIdx '.' p with
  | none => (p, [])
  | some dotIndex =>
    if sepIndex ≤ dotIndex ∧
        ((p.drop sepIndex).take (dotIndex - sepIndex)).any (· ≠ '.') = true
    then (p.take dotIndex, p.drop dotIndex)
    else (p, [])

/-- Python `s.split(sep)` for a single-character separator (never returns an
empty list; empty fields are kept). -/
def splitChar (sep : Char) : List Char → List (List Char)
  | [] => [[]]
  | c :: cs =>
    match splitChar sep cs with
    | [] => []
    | w :: ws => if c = sep then [] :: w :: ws else (c :: w) :: ws

/-- Python `sep.join(parts)` for a single-character separator. -/
def joinChar (sep : Char) : List (List Char) → List Char
  | [] => []
  | [w] => w
  | w :: x :: ws => w ++ sep :: joinChar sep (x :: ws)

/-- Python `parts[-1]` (with a default for the impossible empty list). -/
def lastD {α : Type} (d : α) : List α → α
  | [] => d
  | [x] => x
  | _ :: y :: t => lastD d (y :: t)

/-- `generate_destination_key` (lines 271-288) on the character list:

    path_parts = source_key.split('/')
    filename = path_parts[-1]
    directory = '/'.join(path_parts[:-1]) if len(path_parts) > 1 else ''
    name, ext = os.path.splitext(filename)
    new_filename = f"processed-{name}{ext}"
    return f"{directory}/{new_filename}" if directory else new_filename
-/
def gdkChars (cs : List Char) : List Char :=
  let path_parts := splitChar '/' cs
  let filename := lastD [] path_parts
  let directory :=
    if path_parts.length > 1 then joinChar '/' path_parts.dropLast else []
  let ne := splitextChars filename
  let new_filename := ("processed-".data ++ ne.1) ++ ne.2
  if directory ≠ [] then directory ++ '/' :: new_filename else new_filename

def generate_destination_key (source_key : String) : String :=
  ⟨gdkChars source_key.data⟩

/-- The code's `directory` value for a key: the part before the last `/`. -/
def key_directory (k : String) : List Char :=
  if (splitChar '/' k.data).length > 1
  then joinChar '/' (splitChar '/' k.data).dropLast else []

/-- The filename (last `/`-separated component) of a key. -/
def key_filename (k : String) : String :=
  ⟨lastD [] (splitChar '/' k.data)⟩

/-- The destination key exactly as the claim describes it: the source key
with `processed-` inserted right in front of the filename, the directory
part (everything up to and including the last `/`) preserved verbatim. -/
def spec_destination_key (k : String) : String :=
  ⟨joinChar '/'
    ((splitChar '/' k.data).dropLast ++
      ["processed-".data ++ lastD [] (splitChar '/' k.data)])⟩

/-- `get_content_type` (lines 290-302). -/
def content_types : List (String × String) :=
  [(".jpg", "image/jpeg"), (".jpeg", "image/jpeg"), (".png", "image/png"),
   (".gif", "image/gif"), (".bmp", "image/bmp"), (".webp", "image/webp")]

def get_content_type (file_key : String) : String :=
  (content_types.lookup ⟨(splitextChars (lowerChars file_key.data)).2⟩).getD
    "application/octet-stream"

/-! ### The Lambda handler (`lambda_handler`, source lines 29-97) -/

/-- The fields `record['s3']['bucket']['name']` and
`record['s3']['object']['key']` (the latter after URL-decoding). -/
structure S3ObjectInfo where
  bucket : String
  key : String
deriving DecidableEq

/-- One record of `event['Records']`; `s3 = none` models a record whose
required nested fields are missing, so that accessing them raises a
`KeyError` that escapes the per-record handling. -/
structure EventRecord where
  s3 : Option S3ObjectInfo
deriving DecidableEq

/-- The S3 collaborators and the byte-level image transform, as
`Except`-valued functions: `.error` models a raised exception. -/
structure World where
  getObject : String → String → Except String (List ℕ)
  processImage : List ℕ → Except String (List ℕ)
  putObject : String → String → List ℕ → String → Except String Unit

/-- What happened to one record inside the per-record `try`/`except`s. -/
inductive RecordOutcome
  | skippedNonImage
  | downloadError
  | processError
  | uploadError
  | uploaded (destKey : String)
deriving DecidableEq

/-- The body of the `for record in event['Records']` loop for one record
whose fields are present: skip non-images before any download; catch
download, processing and upload errors individually and abandon the record
(`continue`). -/
def processRecord (w : World) (destBucket : String) (info : S3ObjectInfo) :
    RecordOutcome :=
  if ¬ is_image_file info.key then .skippedNonImage
  else
    match w.getObject info.bucket info.key with
    | .error _ => .downloadError
    | .ok content =>
      match w.processImage content with
      | .error _ => .processError
      | .ok processed =>
        match w.putObject destBucket (generate_destination_key info.key)
            processed (get_content_type info.key) with
        | .error _ => .uploadError
        | .ok _ => .uploaded (generate_destination_key info.key)

/-- Run the loop over the records: the outcomes of the records actually
processed, and `some msg` if an exception escaped the per-record handling
(aborting the loop at that record). -/
def runRecords (w : World) (destBucket : String) :
    List EventRecord → List RecordOutcome × Option String
  | [] => ([], none)
  | r :: rest =>
    match r.s3 with
    | none => ([], some "KeyError")
    | some info =>
      let o := processRecord w destBucket info
      let tail := runRecords w destBucket rest
      (o :: tail.1, tail.2)

/-- `lambda_handler`: `event = none` models an event without a `Records`
key (the access raises before the loop starts); otherwise run the loop and
report 200 unless an exception escaped to the outer `try`. -/
def lambda_handler (w : World) (destBucket : String) :
    Option (List EventRecord) → ℕ × String
  | none => (500, "Error processing images: KeyError")
  | some records =>
    match (runRecords w destBucket records).2 with
    | some e => (500, "Error processing images: " ++ e)
    | none => (200, "Images processed successfully")

/-- A concrete world in which downloading the key `"fail.jpg"` raises and
everything else succeeds. -/
def demoWorld : World :=
  { getObject := fun _ k =>
      if k = "fail.jpg" then .error "AccessDenied" else .ok [1, 2, 3],
    processImage := fun c => .ok c,
    putObject := fun _ _ _ _ => .ok () }

/-- Two well-formed records, the first of which fails its download. -/
def demoRecords : List EventRecord :=
  [⟨some ⟨"bucket", "fail.jpg"⟩⟩, ⟨some ⟨"bucket", "cat.png"⟩⟩]

/-! ## Theorems -/

/-- Float comparison decides the exact order of the represented values. -/
theorem fblt_iff (x y : B64) : fblt x y = true ↔ x.toRat < y.toRat := by
  obtain ⟨m1, e1⟩ := x
  obtain ⟨m2, e2⟩ := y
  show (if e1 ≤ e2 then decide (m1 < m2 * 2 ^ (e2 - e1).toNat)
      else decide (m1 * 2 ^ (e1 - e2).toNat < m2)) = true ↔
    (m1 : ℚ) * (2 : ℚ) ^ e1 < (m2 : ℚ) * (2 : ℚ) ^ e2
  by_cases he : e1 ≤ e2
  · rw [if_pos he, decide_eq_true_iff]
    have hsplit : (2 : ℚ) ^ e2 = (2 : ℚ) ^ (e2 - e1) * (2 : ℚ) ^ e1 := by
      rw [← zpow_add₀ (by norm_num : (2 : ℚ) ≠ 0) (e2 - e1) e1, sub_add_cancel]
    have hcast : (2 : ℚ) ^ (e2 - e1) = ((2 ^ (e2 - e1).toNat : ℕ) : ℚ) := by
      push_cast
      rw [← zpow_natCast (2 : ℚ) (e2 - e1).toNat,
        Int.toNat_of_nonneg (sub_nonneg.mpr he)]
    rw [hsplit, ← mul_assoc,
      mul_lt_mul_right (zpow_pos (by norm_num) e1), hcast]
    exact_mod_cast Iff.rfl
  · push_neg at he
    rw [if_neg (not_le.mpr he), decide_eq_true_iff]
    have hsplit : (2 : ℚ) ^ e1 = (2 : ℚ) ^ (e1 - e2) * (2 : ℚ) ^ e2 := by
      rw [← zpow_add₀ (by norm_num : (2 : ℚ) ≠ 0) (e1 - e2) e2, sub_add_cancel]
    have hcast : (2 : ℚ) ^ (e1 - e2) = ((2 ^ (e1 - e2).toNat : ℕ) : ℚ) := by
      push_cast
      rw [← zpow_natCast (2 : ℚ) (e1 - e2).toNat,
        Int.toNat_of_nonneg (sub_nonneg.mpr (le_of_lt he))]
    rw [hsplit, ← mul_assoc,
      mul_lt_mul_right (zpow_pos (by norm_num) e2), hcast]
    exact_mod_cast Iff.rfl

/-- `int()` truncation of a (nonnegative) float is the floor of its exact
value. -/
theorem ftrunc_eq_natFloor (x : B64) : ftrunc x = ⌊x.toRat⌋₊ := by
  obtain ⟨m, e⟩ := x
  show (if 0 ≤ e then m * 2 ^ e.toNat else m / 2 ^ (-e).toNat) =
    ⌊(m : ℚ) * (2 : ℚ) ^ e⌋₊
  by_cases he : 0 ≤ e
  · rw [if_pos he]
    have hval : (m : ℚ) * (2 : ℚ) ^ e = ((m * 2 ^ e.toNat : ℕ) : ℚ) := by
      push_cast
      rw [← zpow_natCast (2 : ℚ) e.toNat, Int.toNat_of_nonneg he]
    rw [hval, Nat.floor_natCast]
  · rw [if_neg he]
    push_neg at he
    have hval : (m : ℚ) * (2 : ℚ) ^ e = (m : ℚ) / ((2 ^ (-e).toNat : ℕ) : ℚ) := by
      push_cast
      rw [← zpow_natCast (2 : ℚ) (-e).toNat, Int.toNat_of_nonneg (by omega),
        div_eq_mul_inv, ← zpow_neg, neg_neg]
    rw [hval, Nat.floor_div_nat, Nat.floor_natCast]

/-- Counterexample to C1 as stated: a 1×49 image in a 1×49 box.  The exact
ratios are equal, so the claim prescribes the height-constrained output
`(⌊49·1/49⌋, 49) = (1, 49)`; but the code computes
`int(49 * (1/49)) = int(0.9999999999999999) = 0` in binary64 and returns
`(0, 49)`. -/
theorem resize_dims_counterexample :
    resize_dims 1 49 1 49 = (0, 49) ∧
    ((49 * 1 / 49 : ℕ) : ℤ) = 1 ∧
    ((0 : ℤ), (49 : ℤ)) ≠ ((1 : ℤ), (49 : ℤ)) :=
  ⟨by decide, by decide, by decide⟩

/-- C1 (amended): the resize branches on the *rounded* ratios — the width
branch is taken iff `fl64(w/h) > fl64(W/H)`, and equal rounded ratios fall
to the height branch — and the constrained axis is exactly `W` resp. `H`.
Whenever the float division `W / fl64(w/h)` (resp. multiplication
`H * fl64(w/h)`) is exact, the other axis equals the claimed `⌊W*h/w⌋`
(resp. `⌊H*w/h⌋`); float rounding can shift it otherwise, as in the
counterexample. -/
theorem resize_dims_spec (w h W H : ℕ)
    (hw : 0 < w) (hh : 0 < h) (hW : 0 < W) (hH : 0 < H) :
    (fblt (roundRatio W H) (roundRatio w h) = true →
      (fdiv (roundRatio W 1) (roundRatio w h)).toRat = (W : ℚ) * h / w →
      resize_dims w h W H = ((W : ℤ), ((W * h / w : ℕ) : ℤ))) ∧
    (fblt (roundRatio W H) (roundRatio w h) = false →
      (fmul (roundRatio H 1) (roundRatio w h)).toRat = (H : ℚ) * w / h →
      resize_dims w h W H = (((H * w / h : ℕ) : ℤ), (H : ℤ))) ∧
    ((roundRatio W H).toRat = (roundRatio w h).toRat →
      fblt (roundRatio W H) (roundRatio w h) = false) := by
  refine ⟨?_, ?_, ?_⟩
  · intro hb hq
    unfold resize_dims
    rw [if_pos hb]
    have hft : ftrunc (fdiv (roundRatio W 1) (roundRatio w h)) = W * h / w := by
      rw [ftrunc_eq_natFloor, hq,
        show (W : ℚ) * h / w = ((W * h : ℕ) : ℚ) / ((w : ℕ) : ℚ) from by
          push_cast; ring,
        Nat.floor_div_nat, Nat.floor_natCast]
    rw [hft]
  · intro hb hp
    unfold resize_dims
    rw [if_neg (by rw [hb]; exact Bool.false_ne_true)]
    have hft : ftrunc (fmul (roundRatio H 1) (roundRatio w h)) = H * w / h := by
      rw [ftrunc_eq_natFloor, hp,
        show (H : ℚ) * w / h = ((H * w : ℕ) : ℚ) / ((h : ℕ) : ℚ) from by
          push_cast; ring,
        Nat.floor_div_nat, Nat.floor_natCast]
    rw [hft]
  · intro heq
    cases hfb : fblt (roundRatio W H) (roundRatio w h) with
    | false => rfl
    | true =>
      exact absurd ((fblt_iff _ _).mp hfb) (by rw [heq]; exact lt_irrefl _)

/-- Witness for C1 (amended): the spec's 2000×1000 example in a 800×600 box
takes the width branch and resizes to 800×400 (all floats exact); the
mirrored 1000×2000 takes the height branch and resizes to 300×600; equal
rounded ratios (100×100 in 100×100) take the height branch. -/
theorem resize_dims_spec_witness :
    fblt (roundRatio 800 600) (roundRatio 2000 1000) = true ∧
    resize_dims 2000 1000 800 600 = (800, 400) ∧
    fblt (roundRatio 800 600) (roundRatio 1000 2000) = false ∧
    resize_dims 1000 2000 800 600 = (300, 600) ∧
    fblt (roundRatio 100 100) (roundRatio 100 100) = false := by
  have hq : (fdiv (roundRatio 800 1) (roundRatio 2000 1000)).toRat =
      (800 : ℚ) * 1000 / 2000 := by
    rw [show fdiv (roundRatio 800 1) (roundRatio 2000 1000) =
      ⟨7036874417766400, -44⟩ from by decide]
    show (7036874417766400 : ℚ) * (2 : ℚ) ^ (-44 : ℤ) = (800 : ℚ) * 1000 / 2000
    norm_num
  have hp : (fmul (roundRatio 600 1) (roundRatio 1000 2000)).toRat =
      (600 : ℚ) * 1000 / 2000 := by
    rw [show fmul (roundRatio 600 1) (roundRatio 1000 2000) =
      ⟨5277655813324800, -44⟩ from by decide]
    show (5277655813324800 : ℚ) * (2 : ℚ) ^ (-44 : ℤ) = (600 : ℚ) * 1000 / 2000
    norm_num
  have h1 := (resize_dims_spec 2000 1000 800 600 (by norm_num) (by norm_num)
    (by norm_num) (by norm_num)).1 (by decide) hq
  have h2 := (resize_dims_spec 1000 2000 800 600 (by norm_num) (by norm_num)
    (by norm_num) (by norm_num)).2.1 (by decide) hp
  have h3 := (resize_dims_spec 100 100 100 100 (by norm_num) (by norm_num)
    (by norm_num) (by norm_num)).2.2 rfl
  exact ⟨by decide, by rw [h1]; norm_num, by decide, by rw [h2]; norm_num, h3⟩

/-- Counterexample to C2 as stated: (a) at equal aspect ratios (100×100 in a
100×100 box) *both* axes equal their target-box dimensions, so "exactly one
axis equals its target-box dimension" is false; (b) at `w = W = 2⁵⁴ - 1`,
`h = H = 1` the float conversion rounds `2⁵⁴ - 1` up to `2⁵⁴` and the
output width `2⁵⁴` *exceeds* the box width `W = 2⁵⁴ - 1`, so even the bound
fails in binary64. -/
theorem resize_exactlyOne_counterexample :
    ¬ resizeExactlyOneAxisTight 100 100 100 100 ∧
    resize_dims (2 ^ 54 - 1) 1 (2 ^ 54 - 1) 1 = (2 ^ 54, 1) ∧
    ¬ ((2 ^ 54 : ℤ) ≤ ((2 ^ 54 - 1 : ℕ) : ℤ)) := by
  refine ⟨?_, by decide, by decide⟩
  unfold resizeExactlyOneAxisTight
  decide

/-- C2 (amended): *at least one* axis always equals its target-box
dimension (`W` in the width branch, `H` otherwise; both when the rounded
ratios coincide), and whenever the float comparison agrees with the exact
ratio comparison and the float quotient/product are exact, the output also
never exceeds the target box.  Without those exactness conditions the bound
can fail (counterexample (b)), and "exactly one" fails at ties
(counterexample (a)). -/
theorem resize_dims_bounded (w h W H : ℕ)
    (hw : 0 < w) (hh : 0 < h) (hW : 0 < W) (hH : 0 < H)
    (hcmp : (roundRatio W H).toRat < (roundRatio w h).toRat ↔
      (W : ℚ) / H < (w : ℚ) / h)
    (hq : (fdiv (roundRatio W 1) (roundRatio w h)).toRat = (W : ℚ) * h / w)
    (hp : (fmul (roundRatio H 1) (roundRatio w h)).toRat = (H : ℚ) * w / h) :
    (resize_dims w h W H).1 ≤ (W : ℤ) ∧ (resize_dims w h W H).2 ≤ (H : ℤ) ∧
    ((resize_dims w h W H).1 = (W : ℤ) ∨ (resize_dims w h W H).2 = (H : ℤ)) := by
  have hratios : ((W : ℚ) / H < (w : ℚ) / h) ↔ (W * h < w * H) := by
    rw [div_lt_div_iff₀ (by exact_mod_cast hH) (by exact_mod_cast hh)]
    exact_mod_cast Iff.rfl
  cases hfb : fblt (roundRatio W H) (roundRatio w h) with
  | true =>
    have hlt : W * h < w * H := hratios.mp (hcmp.mp ((fblt_iff _ _).mp hfb))
    have hft : ftrunc (fdiv (roundRatio W 1) (roundRatio w h)) = W * h / w := by
      rw [ftrunc_eq_natFloor, hq,
        show (W : ℚ) * h / w = ((W * h : ℕ) : ℚ) / ((w : ℕ) : ℚ) from by
          push_cast; ring,
        Nat.floor_div_nat, Nat.floor_natCast]
    have hle : W * h / w ≤ H := by
      calc W * h / w ≤ w * H / w := Nat.div_le_div_right (le_of_lt hlt)
      _ = H := Nat.mul_div_cancel_left H hw
    unfold resize_dims
    rw [if_pos hfb, hft]
    exact ⟨le_refl _,
      by show ((W * h / w : ℕ) : ℤ) ≤ (H : ℤ); exact_mod_cast hle, Or.inl rfl⟩
  | false =>
    have hnlt : ¬ ((W : ℚ) / H < (w : ℚ) / h) := by
      intro hc
      have hbt : fblt (roundRatio W H) (roundRatio w h) = true :=
        (fblt_iff _ _).mpr (hcmp.mpr hc)
      rw [hfb] at hbt
      exact Bool.false_ne_true hbt
    have hge : w * H ≤ W * h :=
      Nat.not_lt.mp (fun hc => hnlt (hratios.mpr hc))
    have hft : ftrunc (fmul (roundRatio H 1) (roundRatio w h)) = H * w / h := by
      rw [ftrunc_eq_natFloor, hp,
        show (H : ℚ) * w / h = ((H * w : ℕ) : ℚ) / ((h : ℕ) : ℚ) from by
          push_cast; ring,
        Nat.floor_div_nat, Nat.floor_natCast]
    have hle : H * w / h ≤ W := by
      calc H * w / h = w * H / h := by rw [Nat.mul_comm]
      _ ≤ W * h / h := Nat.div_le_div_right hge
      _ = W := Nat.mul_div_cancel W hh
    unfold resize_dims
    rw [if_neg (by rw [hfb]; exact Bool.false_ne_true), hft]
    exact ⟨by show ((H * w / h : ℕ) : ℤ) ≤ (W : ℤ); exact_mod_cast hle,
      le_refl _, Or.inr rfl⟩

/-- Witness for C2 (amended) at 2000×1000 into 800×600, where all the float
operations are exact: 800 ≤ 800, 400 ≤ 600 and the width is tight. -/
theorem resize_dims_bounded_witness :
    (resize_dims 2000 1000 800 600).1 ≤ (800 : ℤ) ∧
    (resize_dims 2000 1000 800 600).2 ≤ (600 : ℤ) ∧
    ((resize_dims 2000 1000 800 600).1 = (800 : ℤ) ∨
     (resize_dims 2000 1000 800 600).2 = (600 : ℤ)) := by
  have hcmp : (roundRatio 800 600).toRat < (roundRatio 2000 1000).toRat ↔
      (800 : ℚ) / 600 < (2000 : ℚ) / 1000 := by
    refine iff_of_true ?_ (by norm_num)
    rw [show roundRatio 800 600 = ⟨6004799503160661, -52⟩ from by decide,
      show roundRatio 2000 1000 = ⟨4503599627370496, -51⟩ from by decide]
    show (6004799503160661 : ℚ) * (2 : ℚ) ^ (-52 : ℤ) <
      (4503599627370496 : ℚ) * (2 : ℚ) ^ (-51 : ℤ)
    norm_num
  have hq : (fdiv (roundRatio 800 1) (roundRatio 2000 1000)).toRat =
      (800 : ℚ) * 1000 / 2000 := by
    rw [show fdiv (roundRatio 800 1) (roundRatio 2000 1000) =
      ⟨7036874417766400, -44⟩ from by decide]
    show (7036874417766400 : ℚ) * (2 : ℚ) ^ (-44 : ℤ) = (800 : ℚ) * 1000 / 2000
    norm_num
  have hp : (fmul (roundRatio 600 1) (roundRatio 2000 1000)).toRat =
      (600 : ℚ) * 2000 / 1000 := by
    rw [show fmul (roundRatio 600 1) (roundRatio 2000 1000) =
      ⟨5277655813324800, -42⟩ from by decide]
    show (5277655813324800 : ℚ) * (2 : ℚ) ^ (-42 : ℤ) = (600 : ℚ) * 2000 / 1000
    norm_num
  exact resize_dims_bounded 2000 1000 800 600 (by norm_num) (by norm_num)
    (by norm_num) (by norm_num) hcmp hq hp

/-- Counterexample to C10's universal clause: at `w = 2⁵³ + 1`, `h = 2⁵³`,
`W = H = 1` the exact hypotheses `w/h > W/H` (`w·H > W·h`) and
`W·h/w < 1` (`W·h < w`) both hold, yet binary64 rounds `w/h` to exactly
`1.0`, the comparison `1.0 > 1.0` fails, and the code returns `(1, 1)` —
output height 1, not 0. -/
theorem resize_dims_zero_height_counterexample :
    (2 ^ 53 + 1) * 1 > 1 * 2 ^ 53 ∧
    1 * 2 ^ 53 < 2 ^ 53 + 1 ∧
    resize_dims (2 ^ 53 + 1) (2 ^ 53) 1 1 = (1, 1) ∧
    (1 : ℤ) ≠ 0 :=
  ⟨by decide, by decide, by decide, by decide⟩

/-- C10 (amended): positive inputs do not guarantee positive output
dimensions: whenever the *float* comparison takes the width branch
(`fl64(w/h) > fl64(W/H)`) and the float quotient `W / fl64(w/h)` is below
1 (so `int()` truncates it to 0), the output height is 0 — as at the
claim's example `(10000, 1, 800, 600)`, where the code returns `(800, 0)`.
The exact-ratio version of "whenever" fails in binary64 (counterexample). -/
theorem resize_dims_zero_height (w h W H : ℕ)
    (hw : 0 < w) (hh : 0 < h) (hW : 0 < W) (hH : 0 < H)
    (hwide : fblt (roundRatio W H) (roundRatio w h) = true)
    (hsmall : (fdiv (roundRatio W 1) (roundRatio w h)).toRat < 1) :
    resize_dims w h W H = ((W : ℤ), 0) := by
  unfold resize_dims
  rw [if_pos hwide]
  have hft : ftrunc (fdiv (roundRatio W 1) (roundRatio w h)) = 0 := by
    rw [ftrunc_eq_natFloor]
    exact Nat.floor_eq_zero.mpr hsmall
  rw [hft]
  rfl

/-- Witness for C10 at the claim's example `w=10000, h=1, W=800, H=600`:
the width branch is taken, the float quotient is `0.08 < 1`, and the
output is `(800, 0)`. -/
theorem resize_dims_zero_height_witness :
    fblt (roundRatio 800 600) (roundRatio 10000 1) = true ∧
    (fdiv (roundRatio 800 1) (roundRatio 10000 1)).toRat < 1 ∧
    resize_dims 10000 1 800 600 = (800, 0) := by
  have hs : (fdiv (roundRatio 800 1) (roundRatio 10000 1)).toRat < 1 := by
    rw [show fdiv (roundRatio 800 1) (roundRatio 10000 1) =
      ⟨5764607523034235, -56⟩ from by decide]
    show (5764607523034235 : ℚ) * (2 : ℚ) ^ (-56 : ℤ) < 1
    norm_num
  refine ⟨by decide, hs, ?_⟩
  have h := resize_dims_zero_height 10000 1 800 600 (by norm_num)
    (by norm_num) (by norm_num) (by norm_num) (by decide) hs
  rw [h]
  norm_num

/-- C3: the five anchors produce the claimed coordinates (margin 20; `center`
uses floor division), and any unrecognized anchor string falls back to the
bottom-right coordinates without erroring. -/
theorem anchor_pos_spec (iw ih tw th : ℤ) (s : String)
    (h1 : s ≠ "top-left") (h2 : s ≠ "top-right") (h3 : s ≠ "bottom-left")
    (h4 : s ≠ "bottom-right") (h5 : s ≠ "center") :
    anchor_pos iw ih tw th "top-left" = (20, 20) ∧
    anchor_pos iw ih tw th "top-right" = (iw - tw - 20, 20) ∧
    anchor_pos iw ih tw th "bottom-left" = (20, ih - th - 20) ∧
    anchor_pos iw ih tw th "bottom-right" = (iw - tw - 20, ih - th - 20) ∧
    anchor_pos iw ih tw th "center" =
      (Int.fdiv (iw - tw) 2, Int.fdiv (ih - th) 2) ∧
    anchor_pos iw ih tw th s = (iw - tw - 20, ih - th - 20) := by
  refine ⟨rfl, rfl, rfl, rfl, rfl, ?_⟩
  simp only [anchor_pos, position_map, List.lookup, margin]
  rw [show (s == "top-left") = false from beq_eq_false_iff_ne.mpr h1,
      show (s == "top-right") = false from beq_eq_false_iff_ne.mpr h2,
      show (s == "bottom-left") = false from beq_eq_false_iff_ne.mpr h3,
      show (s == "bottom-right") = false from beq_eq_false_iff_ne.mpr h4,
      show (s == "center") = false from beq_eq_false_iff_ne.mpr h5]
  rfl

/-- Witness for C3 at the spec's example: a 1000×1000 raster with a 100×30
text box; bottom-right is `(880, 950)`, top-left `(20, 20)`, center
`(450, 485)`, and the unrecognized anchor `"middle"` gives `(880, 950)`. -/
theorem anchor_pos_spec_witness :
    anchor_pos 1000 1000 100 30 "top-left" = (20, 20) ∧
    anchor_pos 1000 1000 100 30 "top-right" = (880, 20) ∧
    anchor_pos 1000 1000 100 30 "bottom-left" = (20, 950) ∧
    anchor_pos 1000 1000 100 30 "bottom-right" = (880, 950) ∧
    anchor_pos 1000 1000 100 30 "center" = (450, 485) ∧
    anchor_pos 1000 1000 100 30 "middle" = (880, 950) := by
  have h := anchor_pos_spec 1000 1000 100 30 "middle"
    (by decide) (by decide) (by decide) (by decide) (by decide)
  refine ⟨h.1, by rw [h.2.1]; decide, by rw [h.2.2.1]; decide,
    by rw [h.2.2.2.1]; decide, by rw [h.2.2.2.2.1]; decide,
    by rw [h.2.2.2.2.2]; decide⟩

/-- C5: recognized original formats re-encode to the same family (JPEG and
JPG both to JPEG), an unrecognized or undetected (`None`) original format
defaults to JPEG; the save call always requests optimization, passes a
quality parameter exactly when the output format is JPEG, and passes none
otherwise. -/
theorem encode_call_spec (orig : Option String) (q : ℕ) (f : String)
    (hf : f ∉ ["JPEG", "JPG", "PNG", "GIF", "BMP", "WEBP"]) :
    output_format (some "JPEG") = "JPEG" ∧
    output_format (some "JPG") = "JPEG" ∧
    output_format (some "PNG") = "PNG" ∧
    output_format (some "GIF") = "GIF" ∧
    output_format (some "BMP") = "BMP" ∧
    output_format (some "WEBP") = "WEBP" ∧
    output_format (some f) = "JPEG" ∧
    output_format none = "JPEG" ∧
    (encode_call orig q).format = output_format orig ∧
    (encode_call orig q).optimize = true ∧
    (output_format orig = "JPEG" → (encode_call orig q).quality = some q) ∧
    (output_format orig ≠ "JPEG" → (encode_call orig q).quality = none) := by
  simp only [List.mem_cons, List.not_mem_nil, or_false, not_or] at hf
  obtain ⟨n1, n2, n3, n4, n5, n6⟩ := hf
  refine ⟨rfl, rfl, rfl, rfl, rfl, rfl, ?_, rfl, ?_, ?_, ?_, ?_⟩
  · simp only [output_format, Option.some_bind, format_map, List.lookup]
    rw [show (f == "JPEG") = false from beq_eq_false_iff_ne.mpr n1,
        show (f == "JPG") = false from beq_eq_false_iff_ne.mpr n2,
        show (f == "PNG") = false from beq_eq_false_iff_ne.mpr n3,
        show (f == "GIF") = false from beq_eq_false_iff_ne.mpr n4,
        show (f == "BMP") = false from beq_eq_false_iff_ne.mpr n5,
        show (f == "WEBP") = false from beq_eq_false_iff_ne.mpr n6]
    rfl
  · unfold encode_call
    by_cases h : output_format orig = "JPEG" <;> simp [h]
  · unfold encode_call
    by_cases h : output_format orig = "JPEG" <;> simp [h]
  · intro h
    unfold encode_call
    simp [h]
  · intro h
    unfold encode_call
    simp [h]

/-- Witness for C5 at `orig = some "PNG"`, `q = 85`, unrecognized
`f = "TIFF"`: PNG stays PNG with no quality parameter, TIFF defaults to
JPEG. -/
theorem encode_call_spec_witness :
    "TIFF" ∉ ["JPEG", "JPG", "PNG", "GIF", "BMP", "WEBP"] ∧
    output_format (some "TIFF") = "JPEG" ∧
    encode_call (some "PNG") 85 =
      { format := "PNG", quality := none, optimize := true } := by
  have h := encode_call_spec (some "PNG") 85 "TIFF" (by decide)
  refine ⟨by decide, h.2.2.2.2.2.2.1, ?_⟩
  have hfmt : output_format (some "PNG") = "PNG" := h.2.2.1
  have hq := h.2.2.2.2.2.2.2.2.2.2.2 (by rw [hfmt]; decide)
  have hform := h.2.2.2.2.2.2.2.2.1
  have hopt := h.2.2.2.2.2.2.2.2.2.1
  cases hc : encode_call (some "PNG") 85 with
  | mk fo qu op =>
    rw [hc] at hq hform hopt
    rw [hfmt] at hform
    simp only at hq hform hopt
    rw [hq, hform, hopt]

/-- C8: a key is processed iff its lowercased form ends with one of the six
allow-listed extensions; a non-matching key (e.g. `.TIFF` or no extension)
is skipped for every world — before any storage access — and a matching key
of any letter case (e.g. `.JPG`) is never skipped. -/
theorem is_image_file_spec (key : String) (w : World) (b bucket : String) :
    (is_image_file key = true ↔
      ∃ ext ∈ image_extensions, ext.data.isSuffixOf (lowerChars key.data) = true) ∧
    (is_image_file key = false →
      processRecord w b ⟨bucket, key⟩ = .skippedNonImage) ∧
    (is_image_file key = true →
      processRecord w b ⟨bucket, key⟩ ≠ .skippedNonImage) ∧
    is_image_file "photo.JPG" = true ∧
    is_image_file "doc.TIFF" = false ∧
    is_image_file "README" = false := by
  refine ⟨?_, ?_, ?_, by decide, by decide, by decide⟩
  · simp [is_image_file, List.any_eq_true]
  · intro h
    unfold processRecord
    simp [h]
  · intro h
    unfold processRecord
    simp only [h, Bool.true_eq_false, not_false_eq_true, not_true_eq_false,
      if_false, ite_false]
    split
    · simp
    · split
      · simp
      · split <;> simp

/-- Witness for C8: `doc.TIFF` is skipped (no storage read) while
`photo.JPG` is not skipped, in the concrete demo world. -/
theorem is_image_file_spec_witness :
    processRecord demoWorld "dest" ⟨"bucket", "doc.TIFF"⟩ =
      RecordOutcome.skippedNonImage ∧
    processRecord demoWorld "dest" ⟨"bucket", "photo.JPG"⟩ ≠
      RecordOutcome.skippedNonImage :=
  ⟨(is_image_file_spec "doc.TIFF" demoWorld "dest" "bucket").2.1 (by decide),
   (is_image_file_spec "photo.JPG" demoWorld "dest" "bucket").2.2.1 (by decide)⟩

/-- If every record has its required fields, the loop completes: no
exception escapes and every record yields an outcome. -/
theorem runRecords_ok (w : World) (b : String) (rs : List EventRecord)
    (hwf : ∀ r ∈ rs, r.s3.isSome) :
    (runRecords w b rs).2 = none ∧ (runRecords w b rs).1.length = rs.length := by
  induction rs with
  | nil => exact ⟨rfl, rfl⟩
  | cons r rest ih =>
    have hr := hwf r (List.mem_cons_self r rest)
    have ihr := ih (fun q hq => hwf q (List.mem_cons_of_mem r hq))
    cases hs : r.s3 with
    | none => rw [hs] at hr; exact absurd hr (by simp)
    | some info =>
      simp only [runRecords, hs, List.length_cons]
      exact ⟨ihr.1, by rw [ihr.2]⟩

/-- A structurally invalid record raises a `KeyError` that escapes the
per-record handling. -/
theorem runRecords_err (w : World) (b : String) (rs : List EventRecord)
    (hbad : ∃ r ∈ rs, r.s3 = none) :
    (runRecords w b rs).2 = some "KeyError" := by
  induction rs with
  | nil => simp at hbad
  | cons r rest ih =>
    obtain ⟨q, hq, hqs⟩ := hbad
    rcases List.mem_cons.mp hq with hqr | hqrest
    · subst hqr
      cases hs : q.s3 with
      | none => simp [runRecords, hs]
      | some info => rw [hs] at hqs; exact absurd hqs (by simp)
    · cases hs : r.s3 with
      | none => simp [runRecords, hs]
      | some info =>
        simp only [runRecords, hs]
        exact ih ⟨q, hqrest, hqs⟩

/-- C4: with every record structurally well-formed, per-record failures
(storage read, transform, storage write) are swallowed — the handler
produces an outcome for every record and returns 200; an exception escaping
the per-record handling (a malformed record, or an event without `Records`)
returns 500 with the error message. -/
theorem lambda_handler_spec (w : World) (b : String) (rs : List EventRecord)
    (hwf : ∀ r ∈ rs, r.s3.isSome) :
    (lambda_handler w b (some rs) = (200, "Images processed successfully") ∧
     (runRecords w b rs).1.length = rs.length) ∧
    (∀ rs' : List EventRecord, (∃ r ∈ rs', r.s3 = none) →
      lambda_handler w b (some rs') =
        (500, "Error processing images: KeyError")) ∧
    lambda_handler w b none = (500, "Error processing images: KeyError") := by
  have hok := runRecords_ok w b rs hwf
  refine ⟨⟨?_, hok.2⟩, ?_, rfl⟩
  · simp only [lambda_handler]
    rw [hok.1]
  · intro rs' hbad
    simp only [lambda_handler]
    rw [runRecords_err w b rs' hbad]
    rfl

/-- Witness for C4 in the demo world: the first record's download fails yet
both records are processed and the invocation returns 200; a malformed
record yields 500. -/
theorem lambda_handler_spec_witness :
    (∀ r ∈ demoRecords, r.s3.isSome) ∧
    processRecord demoWorld "dest" ⟨"bucket", "fail.jpg"⟩ =
      RecordOutcome.downloadError ∧
    lambda_handler demoWorld "dest" (some demoRecords) =
      (200, "Images processed successfully") ∧
    (runRecords demoWorld "dest" demoRecords).1.length = 2 ∧
    lambda_handler demoWorld "dest" (some [⟨none⟩]) =
      (500, "Error processing images: KeyError") := by
  have h := lambda_handler_spec demoWorld "dest" demoRecords (by decide)
  exact ⟨by decide, by decide, h.1.1, by rw [h.1.2]; rfl,
    h.2.1 [⟨none⟩] ⟨⟨none⟩, by simp, rfl⟩⟩

/-- Pillow's `MULDIV255` is exact on a full mask: `MULDIV255(c, 255) = c`
for any 8-bit `c`. -/
theorem muldiv255_full (c : ℕ) (hc : c ≤ 255) : muldiv255 c 255 = c := by
  unfold muldiv255 shiftfordiv255
  omega

/-- Flattening an already-opaque pixel onto white is the identity on the
color channels. -/
theorem flattenOverWhite_opaque (p : Px4) (ha : p.a = 255)
    (hr : p.r ≤ 255) (hg : p.g ≤ 255) (hb : p.b ≤ 255) :
    flattenOverWhite p = ⟨p.r, p.g, p.b, 255⟩ := by
  unfold flattenOverWhite blendMask
  rw [ha]
  rw [show (255 - 255 : ℕ) = 0 from rfl,
      show muldiv255 255 0 = 0 from rfl,
      muldiv255_full _ hr, muldiv255_full _ hg, muldiv255_full _ hb]
  simp

/-- Counterexample to C6 as stated: on the LA raster whose single pixel is
fully transparent black, flattening onto an opaque white background would
give white `(255, 255, 255)`, but the code pastes the LA image without its
alpha mask and produces black `(0, 0, 0)` — LA transparency is ignored. -/
theorem normalize_mode_counterexample : ¬ flattensOntoWhite laRaster := by
  intro h
  exact absurd (h 0 0) (by decide)

/-- C6 (amended): RGBA rasters, and palette rasters first expanded through
their palette (respecting indexed transparency), are flattened onto opaque
white; already-opaque RGB rasters pass through unchanged; but LA rasters
are pasted onto the white background *without* their alpha mask — the
luminance is replicated to the RGB channels and the alpha is dropped, so LA
transparency is not respected. -/
theorem normalize_mode_spec (img : Raster) :
    (img.mode = .RGB → normalize_mode img = img) ∧
    (img.mode = .RGBA → ∀ x y,
      (normalize_mode img).pix x y = flattenOverWhite (img.pix x y)) ∧
    (img.mode = .P → ∀ x y,
      (normalize_mode img).pix x y =
        flattenOverWhite (img.palette ((img.pix x y).r))) ∧
    (img.mode = .LA → ∀ x y,
      (normalize_mode img).pix x y =
        ⟨(img.pix x y).r, (img.pix x y).r, (img.pix x y).r, 255⟩) := by
  refine ⟨fun hm => ?_, fun hm x y => ?_, fun hm x y => ?_, fun hm x y => ?_⟩ <;>
    simp [normalize_mode, hm]

/-- Witness for C6 (amended) on the transparent-black LA raster: the code's
output pixel is black, not the white that alpha-respecting flattening would
produce. -/
theorem normalize_mode_spec_witness :
    laRaster.mode = PilMode.LA ∧
    (normalize_mode laRaster).pix 0 0 = ⟨0, 0, 0, 255⟩ := by
  refine ⟨rfl, ?_⟩
  rw [(normalize_mode_spec laRaster).2.2.2 rfl 0 0]
  rfl

/-- C7: the watermark compositor returns a raster with the same dimensions
as its input, and every pixel outside the glyph coverage keeps its exact
color channels — only pixels under glyph coverage are blended.  This holds
for every coverage set (hence for every text, anchor and size ratio) and
every opacity. -/
theorem add_watermark_frame (img : Raster) (coverage : ℕ → ℕ → Bool)
    (opacity : ℕ) (hv : ValidChannels img) :
    (add_watermark img coverage opacity).width = img.width ∧
    (add_watermark img coverage opacity).height = img.height ∧
    ∀ x y, coverage x y = false →
      ((add_watermark img coverage opacity).pix x y).r = (img.pix x y).r ∧
      ((add_watermark img coverage opacity).pix x y).g = (img.pix x y).g ∧
      ((add_watermark img coverage opacity).pix x y).b = (img.pix x y).b := by
  refine ⟨rfl, rfl, fun x y hc => ?_⟩
  obtain ⟨hr, hg, hb⟩ := hv x y
  have h1 : (add_watermark img coverage opacity).pix x y =
      flattenOverWhite ⟨(img.pix x y).r, (img.pix x y).g, (img.pix x y).b, 255⟩ := by
    simp [add_watermark, hc, alpha_composite_px]
  rw [h1, flattenOverWhite_opaque
    ⟨(img.pix x y).r, (img.pix x y).g, (img.pix x y).b, 255⟩ rfl hr hg hb]
  exact ⟨rfl, rfl, rfl⟩

/-- Witness for C7 on the 4×3 constant raster with a coverage set touching
only `(0, 0)`: dimensions are preserved and the uncovered pixel `(1, 2)`
keeps its color `(10, 20, 30)`. -/
theorem add_watermark_frame_witness :
    ValidChannels demoRGB ∧
    (add_watermark demoRGB demoCoverage 200).width = 4 ∧
    (add_watermark demoRGB demoCoverage 200).height = 3 ∧
    ((add_watermark demoRGB demoCoverage 200).pix 1 2).r = 10 ∧
    ((add_watermark demoRGB demoCoverage 200).pix 1 2).g = 20 ∧
    ((add_watermark demoRGB demoCoverage 200).pix 1 2).b = 30 := by
  have hv : ValidChannels demoRGB := fun _ _ => by
    refine ⟨?_, ?_, ?_⟩ <;> simp [demoRGB]
  have h := add_watermark_frame demoRGB demoCoverage 200 hv
  have hp := h.2.2 1 2 (by decide)
  exact ⟨hv, h.1, h.2.1, hp.1, hp.2.1, hp.2.2⟩

/-- `str.split` never returns an empty list. -/
theorem splitChar_ne_nil (sep : Char) (cs : List Char) :
    splitChar sep cs ≠ [] := by
  induction cs with
  | nil => simp [splitChar]
  | cons c cs ih =>
    unfold splitChar
    cases hps : splitChar sep cs with
    | nil => exact absurd hps ih
    | cons w ws => by_cases hc : c = sep <;> simp [hc]

/-- `lastD` of a list ending in `x` is `x`. -/
theorem lastD_concat {α : Type} (d : α) (l : List α) (x : α) :
    lastD d (l ++ [x]) = x := by
  induction l with
  | nil => rfl
  | cons y t ih =>
    cases t with
    | nil => rfl
    | cons z t2 => exact ih

/-- `lastD` of a nonempty list is a member of it. -/
theorem lastD_mem {α : Type} (d : α) (l : List α) (h : l ≠ []) :
    lastD d l ∈ l := by
  induction l with
  | nil => exact absurd rfl h
  | cons y t ih =>
    cases t with
    | nil => simp [lastD]
    | cons z t2 => exact List.mem_cons_of_mem y (ih (by simp))

/-- `os.path.splitext` splits its argument into two parts whose
concatenation is the argument (`name + ext == filename`). -/
theorem splitext_join (p : List Char) :
    (splitextChars p).1 ++ (splitextChars p).2 = p := by
  unfold splitextChars
  dsimp only
  split
  · simp
  · split
    · exact List.take_append_drop _ p
    · simp

/-- The one-step equation of `splitChar` with its inner match resolved. -/
theorem splitChar_cons_eq (sep c : Char) (cs w : List Char)
    (ws : List (List Char)) (hps : splitChar sep cs = w :: ws) :
    splitChar sep (c :: cs) =
      if c = sep then [] :: w :: ws else (c :: w) :: ws := by
  unfold splitChar
  rw [hps]

/-- Splitting a concatenation around an explicit separator splits each
side independently. -/
theorem splitChar_append_sep (sep : Char) (xs ys : List Char) :
    splitChar sep (xs ++ sep :: ys) = splitChar sep xs ++ splitChar sep ys := by
  induction xs with
  | nil =>
    obtain ⟨w, ws, hps⟩ :=
      List.exists_cons_of_ne_nil (splitChar_ne_nil sep ys)
    show splitChar sep (sep :: ys) = [[]] ++ splitChar sep ys
    rw [splitChar_cons_eq sep sep ys w ws hps, if_pos rfl, hps]
    rfl
  | cons c cs ih =>
    obtain ⟨w, ws, hps⟩ :=
      List.exists_cons_of_ne_nil (splitChar_ne_nil sep (cs ++ sep :: ys))
    obtain ⟨p, ps, hp⟩ :=
      List.exists_cons_of_ne_nil (splitChar_ne_nil sep cs)
    show splitChar sep (c :: (cs ++ sep :: ys)) =
      splitChar sep (c :: cs) ++ splitChar sep ys
    rw [splitChar_cons_eq sep c _ w ws hps,
        splitChar_cons_eq sep c cs p ps hp]
    rw [hps, hp] at ih
    injection ih with h1 h2
    by_cases hc : c = sep
    · rw [if_pos hc, if_pos hc, h1, h2]
      rfl
    · rw [if_neg hc, if_neg hc, h1, h2]
      rfl

/-- A separator-free string splits into a single part. -/
theorem splitChar_of_not_mem (sep : Char) (cs : List Char) (h : sep ∉ cs) :
    splitChar sep cs = [cs] := by
  induction cs with
  | nil => rfl
  | cons c cs ih =>
    have hc : c ≠ sep := fun he => h (he ▸ List.mem_cons_self c cs)
    have hcs : sep ∉ cs := fun hm => h (List.mem_cons_of_mem c hm)
    rw [splitChar_cons_eq sep c cs cs [] (ih hcs), if_neg hc]

/-- Every part produced by `splitChar` is separator-free. -/
theorem sep_not_mem_of_mem_splitChar (sep : Char) (cs : List Char) :
    ∀ w ∈ splitChar sep cs, sep ∉ w := by
  induction cs with
  | nil =>
    intro w hw
    simp [splitChar] at hw
    subst hw
    simp
  | cons c cs ih =>
    intro w hw
    obtain ⟨p, ps, hps⟩ :=
      List.exists_cons_of_ne_nil (splitChar_ne_nil sep cs)
    rw [splitChar_cons_eq sep c cs p ps hps] at hw
    by_cases hc : c = sep
    · rw [if_pos hc] at hw
      rcases List.mem_cons.mp hw with h1 | h2
      · subst h1; simp
      · exact ih w (by rw [hps]; exact h2)
    · rw [if_neg hc] at hw
      rcases List.mem_cons.mp hw with h1 | h2
      · subst h1
        intro hmem
        rcases List.mem_cons.mp hmem with he | hp
        · exact hc he.symm
        · exact ih p (by rw [hps]; exact List.mem_cons_self p ps) hp
      · exact ih w (by rw [hps]; exact List.mem_cons_of_mem p h2)

/-- `joinChar` on a cons with nonempty tail. -/
theorem joinChar_cons_of_ne (sep : Char) (w : List Char)
    (ws : List (List Char)) (h : ws ≠ []) :
    joinChar sep (w :: ws) = w ++ sep :: joinChar sep ws := by
  cases ws with
  | nil => exact absurd rfl h
  | cons x t => rfl

/-- `joinChar` over a snoc with a nonempty front. -/
theorem joinChar_concat (sep : Char) (xs : List (List Char)) (y : List Char)
    (h : xs ≠ []) :
    joinChar sep (xs ++ [y]) = joinChar sep xs ++ sep :: y := by
  induction xs with
  | nil => exact absurd rfl h
  | cons w ws ih =>
    cases ws with
    | nil => rfl
    | cons v vs =>
      rw [List.cons_append,
          joinChar_cons_of_ne sep w ((v :: vs) ++ [y]) (by simp),
          joinChar_cons_of_ne sep w (v :: vs) (by simp),
          ih (by simp)]
      simp

/-- `generate_destination_key` without the `splitext` detour: the new
filename is just the old one with the `processed-` prefix, placed behind the
directory when that is nonempty. -/
theorem gdkChars_eq (cs : List Char) :
    gdkChars cs =
      if (if (splitChar '/' cs).length > 1
          then joinChar '/' (splitChar '/' cs).dropLast else []) ≠ []
      then (if (splitChar '/' cs).length > 1
            then joinChar '/' (splitChar '/' cs).dropLast else []) ++
        '/' :: ("processed-".data ++ lastD [] (splitChar '/' cs))
      else "processed-".data ++ lastD [] (splitChar '/' cs) := by
  unfold gdkChars
  dsimp only
  rw [List.append_assoc, splitext_join]

/-- The filename of a derived key is the source filename with the
`processed-` prefix. -/
theorem gdk_filename (cs : List Char) :
    lastD [] (splitChar '/' (gdkChars cs)) =
      "processed-".data ++ lastD [] (splitChar '/' cs) := by
  rw [gdkChars_eq]
  have hfree_f : '/' ∉ lastD [] (splitChar '/' cs) :=
    sep_not_mem_of_mem_splitChar '/' cs _
      (lastD_mem [] _ (splitChar_ne_nil '/' cs))
  have hfree_nf : '/' ∉ ("processed-".data ++ lastD [] (splitChar '/' cs)) := by
    intro hm
    rcases List.mem_append.mp hm with h1 | h2
    · exact absurd h1 (by decide)
    · exact hfree_f h2
  by_cases hd : (if (splitChar '/' cs).length > 1
      then joinChar '/' (splitChar '/' cs).dropLast else []) ≠ []
  · rw [if_pos hd, splitChar_append_sep,
        splitChar_of_not_mem '/' _ hfree_nf, lastD_concat]
  · rw [if_neg hd, splitChar_of_not_mem '/' _ hfree_nf]
    rfl

/-- Counterexample to C9 as stated: the code does *not* preserve the
directory path of every source key — a key with only a leading slash loses
it, because the empty joined directory is falsy in Python.  The claim's
reading would give `/processed-cat.png`; the code returns
`processed-cat.png`. -/
theorem generate_destination_key_counterexample :
    generate_destination_key "/cat.png" = "processed-cat.png" ∧
    spec_destination_key "/cat.png" = "/processed-cat.png" ∧
    generate_destination_key "/cat.png" ≠ spec_destination_key "/cat.png" := by
  refine ⟨?_, ?_, ?_⟩ <;> decide

/-- C9 (amended): the derived key is the source key with the filename's
base name prefixed by `processed-`; the directory path is preserved
whenever the directory part (the key up to the last `/`) is nonempty — a
key whose directory part is empty (no `/`, or only a leading `/`) yields
just the prefixed filename, dropping a leading `/`.  Deriving twice
prepends the prefix again: the filename gains `processed-processed-`. -/
theorem generate_destination_key_spec (k : String)
    (hdir : key_directory k ≠ []) :
    generate_destination_key k = spec_destination_key k ∧
    key_filename (generate_destination_key k) =
      "processed-" ++ key_filename k ∧
    key_filename (generate_destination_key (generate_destination_key k)) =
      "processed-processed-" ++ key_filename k := by
  refine ⟨?_, ?_, ?_⟩
  · unfold key_directory at hdir
    have hlen : (splitChar '/' k.data).length > 1 := by
      by_contra hl
      exact hdir (by rw [if_neg hl])
    rw [if_pos hlen] at hdir
    have hdrop : (splitChar '/' k.data).dropLast ≠ [] := by
      intro hd
      exact hdir (by rw [hd]; rfl)
    show String.mk (gdkChars k.data) = spec_destination_key k
    rw [gdkChars_eq]
    unfold spec_destination_key
    rw [if_pos (by rw [if_pos hlen]; exact hdir),
        if_pos hlen, joinChar_concat '/' _ _ hdrop]
  · show String.mk (lastD [] (splitChar '/' (gdkChars k.data))) = _
    rw [gdk_filename]
    rfl
  · show String.mk
      (lastD [] (splitChar '/' (gdkChars (gdkChars k.data)))) = _
    rw [gdk_filename, gdk_filename, ← List.append_assoc,
        show "processed-".data ++ "processed-".data =
          "processed-processed-".data from by decide]
    rfl

/-- Witness for C9 at `photos/cat.png`: the directory is preserved, the
filename is prefixed, and deriving twice stacks the prefix. -/
theorem generate_destination_key_spec_witness :
    key_directory "photos/cat.png" ≠ [] ∧
    generate_destination_key "photos/cat.png" = "photos/processed-cat.png" ∧
    generate_destination_key (generate_destination_key "photos/cat.png") =
      "photos/processed-processed-cat.png" := by
  have h := generate_destination_key_spec "photos/cat.png" (by decide)
  refine ⟨by decide, ?_, ?_⟩
  · rw [h.1]; decide
  · decide

end ImageProc
